import Mathlib

/-!
Shallow embedding of the `cpp-simple-vector` repository: the `ArrayPtr`
owning-buffer primitive (`src/simple-vector/array_ptr.h`) and the
`SimpleVector` growable array (`src/simple-vector/simple_vector.h`).

A heap buffer obtained from `ArrayPtr<Type>(n)` (`new Type[n]`, null when
`n == 0`) is modelled as a `List T` of length `n` whose fresh slots behave
as default-constructed values; `SimpleVector`'s `data_` member stores that
list, so the physical extent of the owned buffer is `data_.length` (0 for
the null buffer). `size_t` arithmetic is modelled on `Nat` (no operation
verified here approaches 2^64); the one place the source narrows a value
through signed 32-bit `int` — `Resize`'s growth branch — is modelled
exactly, via `intOfSizeT` / `sizeTOfInt`.
-/

variable {T : Type} [Inhabited T]

/-- Read of slot `i` of a buffer: `*(raw_ptr_ + i)`. A read outside the
allocation is undefined behaviour in the source; the model returns
`default` there. -/
def bufGet (buf : List T) (i : Nat) : T := buf.getD i default

/-- Consecutive writes `buf[start] = v0; buf[start+1] = v1; ...` — the shape
of the source's element-transfer loops and of `std::copy` / `std::move` /
`std::copy_backward` once the source range has been snapshotted. A write
outside the allocation (undefined behaviour in the source) leaves the model
buffer unchanged (`List.set` out of range is the identity). -/
def writeSeq (buf : List T) (start : Nat) (vals : List T) : List T :=
  match vals with
  | [] => buf
  | v :: rest => writeSeq (buf.set start v) (start + 1) rest

/-- The values `buf[start], ..., buf[start + count - 1]`, read before any
write happens: the source range of a copy/move algorithm call. -/
def readSeq (buf : List T) (start count : Nat) : List T :=
  (List.range count).map (fun j => bufGet buf (start + j))

/-- `ArrayPtr<Type>` (`array_ptr.h`): exclusive owner of one heap array.
`raw_ptr_ = none` models the null pointer; `some l` models ownership of an
allocation whose contents are `l`. -/
structure ArrayPtr (T : Type) where
  raw_ptr_ : Option (List T)

/-- `explicit ArrayPtr(size_t size)`: null when `size == 0`, otherwise
`new Type[size]` (slots behave as default-constructed). -/
def ArrayPtr.ofSize (size : Nat) : ArrayPtr T :=
  if size = 0 then ⟨none⟩ else ⟨some (List.replicate size default)⟩

/-- `ArrayPtr::operator=(ArrayPtr&& other)` in the `this != &other` case:
`raw_ptr_ = std::exchange(other.raw_ptr_, nullptr)`. Returns the new states
of `*this` and of `other`. -/
def ArrayPtr.moveAssign (dst other : ArrayPtr T) : ArrayPtr T × ArrayPtr T :=
  (⟨other.raw_ptr_⟩, ⟨none⟩)

/-- `ArrayPtr::operator=(ArrayPtr&& other)` in the aliased case
`this == &other`: the guard `this != &other` fails, so no statement of the
body runs and `*this` is returned unchanged. -/
def ArrayPtr.moveAssignSelf (a : ArrayPtr T) : ArrayPtr T := a

/-- `SimpleVector<Type>` (`simple_vector.h`): `size_`, `capacity_`, and the
contents of the owned `ArrayPtr<Type> data_` buffer, whose length is the
physical extent of the allocation (0 for the null buffer). -/
structure SimpleVector (T : Type) where
  size_ : Nat
  capacity_ : Nat
  data_ : List T

/-- `SimpleVector()`: the default member initialisers `size_ = 0`,
`capacity_ = 0`, null `data_`. -/
def SimpleVector.mkDefault : SimpleVector T := ⟨0, 0, []⟩

/-- `explicit SimpleVector(size_t size)`: allocates `ArrayPtr<Type>(size)`
and `std::fill`s the `size` slots with `Type()` (both the fresh slots and
the filled values are `default`). -/
def SimpleVector.ofSize (size : Nat) : SimpleVector T :=
  ⟨size, size, List.replicate size default⟩

/-- `SimpleVector(std::initializer_list<Type> init)`: allocates
`ArrayPtr<Type>(init.size())` and `std::copy`s the list into it. -/
def SimpleVector.ofList (init : List T) : SimpleVector T :=
  ⟨init.length, init.length, writeSeq (List.replicate init.length default) 0 init⟩

/-- Private helper `ReallocateAndMoveData(size_t new_capacity)`: allocates
`ArrayPtr<Type>(new_capacity)`, moves `min(size_, new_capacity)` elements
across, swaps the buffer in, and sets `capacity_ = new_capacity`. -/
def SimpleVector.ReallocateAndMoveData (s : SimpleVector T) (new_capacity : Nat) :
    SimpleVector T :=
  { s with
      data_ := writeSeq (List.replicate new_capacity default) 0
        (readSeq s.data_ 0 (min s.size_ new_capacity)),
      capacity_ := new_capacity }

/-- Member `Reserve(size_t new_capacity)`: reallocate (to exactly
`new_capacity`) only when `new_capacity > capacity_`. -/
def SimpleVector.Reserve (s : SimpleVector T) (new_capacity : Nat) : SimpleVector T :=
  if new_capacity > s.capacity_ then s.ReallocateAndMoveData new_capacity else s

/-- `explicit SimpleVector(ReserveProxyObject wrapper)`: on the
default-initialised members the body runs
`capacity_ = wrapper.capacity_to_reserve;` and then `Reserve(capacity_)`. -/
def SimpleVector.ofReserve (capacity_to_reserve : Nat) : SimpleVector T :=
  SimpleVector.Reserve ⟨0, capacity_to_reserve, []⟩ capacity_to_reserve

/-- `PushBack(const Type& value)` (the `Type&&` overload places the same
value the same way): when `size_ + 1 > capacity_`, reallocate to
`max(size_ + 1, 2 * capacity_)` — or to 1 when `capacity_ == 0` — then
write the value at offset `size_` and set `size_ = size_ + 1`. -/
def SimpleVector.PushBack (s : SimpleVector T) (value : T) : SimpleVector T :=
  let grown := if s.size_ + 1 > s.capacity_ then
      s.ReallocateAndMoveData
        (if s.capacity_ ≠ 0 then max (s.size_ + 1) (2 * s.capacity_) else 1)
    else s
  { grown with data_ := grown.data_.set s.size_ value, size_ := s.size_ + 1 }

/-- `Insert(ConstIterator position, const Type& value)` with
`position = begin() + position_offset` (the source asserts
`position_offset <= size_`); the `Type&&` overload is element-wise
identical. In place:
`std::copy_backward(element_position, data_ + size_, data_ + size_ + 1)`
then `data_[position_offset] = value`. Growth: allocate
`max(size_ + 1, 2 * capacity_)` (1 from capacity 0), copy the prefix,
place the value, copy the suffix one slot later, swap the buffer in. -/
def SimpleVector.Insert (s : SimpleVector T) (position_offset : Nat) (value : T) :
    SimpleVector T :=
  if s.size_ + 1 ≤ s.capacity_ then
    let buf := writeSeq s.data_ (position_offset + 1)
      (readSeq s.data_ position_offset (s.size_ - position_offset))
    { s with data_ := buf.set position_offset value, size_ := s.size_ + 1 }
  else
    let new_capacity := if s.capacity_ ≠ 0 then max (s.size_ + 1) (2 * s.capacity_) else 1
    let nd := writeSeq (List.replicate new_capacity default) 0
      (readSeq s.data_ 0 position_offset)
    let nd := nd.set position_offset value
    let nd := writeSeq nd (position_offset + 1)
      (readSeq s.data_ position_offset (s.size_ - position_offset))
    ⟨s.size_ + 1, new_capacity, nd⟩

/-- `PopBack()` (the source asserts `size_ != 0`): `--size_`. -/
def SimpleVector.PopBack (s : SimpleVector T) : SimpleVector T :=
  { s with size_ := s.size_ - 1 }

/-- `Erase(ConstIterator pos)` with `pos = begin() + erase_index` (the
source asserts `begin() <= pos < end()`, i.e. `erase_index < size_`):
`std::move(begin() + erase_index + 1, end(), begin() + erase_index)` then
`--size_`. -/
def SimpleVector.Erase (s : SimpleVector T) (erase_index : Nat) : SimpleVector T :=
  { s with
      data_ := writeSeq s.data_ erase_index
        (readSeq s.data_ (erase_index + 1) (s.size_ - (erase_index + 1))),
      size_ := s.size_ - 1 }

/-- Narrowing of a 64-bit unsigned `size_t` value to 32-bit signed `int`
(two's complement, as on the mainstream targets the source runs on). -/
def intOfSizeT (v : Nat) : Int :=
  if v % 2 ^ 32 < 2 ^ 31 then ((v % 2 ^ 32 : Nat) : Int)
  else ((v % 2 ^ 32 : Nat) : Int) - 2 ^ 32

/-- Conversion of a signed `int` value back to `size_t` (modulo 2^64). -/
def sizeTOfInt (x : Int) : Nat := (x % (2 ^ 64 : Int)).toNat

/-- `Resize(size_t new_size)`. Truncation and grow-in-place keep the buffer
and capacity. The growth branch computes
`int new_capacity = std::max(new_size, capacity_ * 2)` — note the narrowing
of the unsigned maximum through signed `int` — then allocates
`ArrayPtr<Type>(new_capacity)` and later assigns `capacity_ = new_capacity`,
both converting that `int` back to `size_t`; elements `[0, size_)` are
moved across and `[size_, new_size)` is filled with `Type()`. -/
def SimpleVector.Resize (s : SimpleVector T) (new_size : Nat) : SimpleVector T :=
  if new_size ≤ s.size_ then { s with size_ := new_size }
  else if new_size ≤ s.capacity_ then
    { s with
        data_ := writeSeq s.data_ s.size_ (List.replicate (new_size - s.size_) default),
        size_ := new_size }
  else
    let new_capacity : Int := intOfSizeT (max new_size (s.capacity_ * 2))
    let na := writeSeq (List.replicate (sizeTOfInt new_capacity) default) 0
      (readSeq s.data_ 0 s.size_)
    let na := writeSeq na s.size_ (List.replicate (new_size - s.size_) default)
    ⟨new_size, sizeTOfInt new_capacity, na⟩

/-- `operator[](size_t index)` (unchecked; `index >= size_` is undefined
behaviour by the caller contract). -/
def SimpleVector.opIndex (s : SimpleVector T) (index : Nat) : T := bufGet s.data_ index

/-- `At(size_t index)`: throws `std::out_of_range` when `index >= size_`,
otherwise returns `data_[index]`. The method is `const`; the pair carries
the call's result (`Except.error ()` models the throw) together with the —
unchanged — object state after the call. -/
def SimpleVector.At (s : SimpleVector T) (index : Nat) : Except Unit T × SimpleVector T :=
  if index ≥ s.size_ then (Except.error (), s) else (Except.ok (bufGet s.data_ index), s)

/-- `SimpleVector(const SimpleVector& other)`: builds `cp(other.size_)`
(so `cp.size_ = cp.capacity_ = other.size_`), `std::copy`s other's logical
elements `[begin, end)` into it, then adopts `cp`'s size, capacity and
buffer. -/
def SimpleVector.copyCtor (other : SimpleVector T) : SimpleVector T :=
  let cp : SimpleVector T := SimpleVector.ofSize other.size_
  let cp := { cp with data_ := writeSeq cp.data_ 0 (readSeq other.data_ 0 other.size_) }
  ⟨cp.size_, cp.capacity_, cp.data_⟩

/-- `SimpleVector(SimpleVector&& other)`: `std::exchange`s other's size and
capacity to 0 and moves its buffer (`ArrayPtr` move-construction nulls the
source pointer). Returns the constructed vector and the new state of
`other`. -/
def SimpleVector.moveCtor (other : SimpleVector T) : SimpleVector T × SimpleVector T :=
  (⟨other.size_, other.capacity_, other.data_⟩, ⟨0, 0, []⟩)

/-- `operator=(SimpleVector&& other)` in the `this != &other` case (the
guard makes self-move-assignment a no-op): `std::exchange`s other's size
and capacity to 0 and move-assigns the buffer (nulling other's pointer).
Returns the new states of `*this` and of `other`. -/
def SimpleVector.moveAssign (dst other : SimpleVector T) :
    SimpleVector T × SimpleVector T :=
  (⟨other.size_, other.capacity_, other.data_⟩, ⟨0, 0, []⟩)

/-- `operator==(lhs, rhs)`:
`std::equal(lhs.begin(), lhs.end(), rhs.begin())` — the three-iterator
overload, which compares exactly `lhs.GetSize()` positions of both
sequences and never consults `rhs`'s size. -/
def vecEqOp [DecidableEq T] (lhs rhs : SimpleVector T) : Bool :=
  (List.range lhs.size_).all fun i => decide (bufGet lhs.data_ i = bufGet rhs.data_ i)

/-- The logical contents of a vector: the elements at offsets
`[0, size_)` of its buffer, in index order (`begin()` to `end()`). -/
def SimpleVector.elems (s : SimpleVector T) : List T := readSeq s.data_ 0 s.size_

/-- A sequence of `PushBack` calls, one per element of `vals`, left to
right. -/
def SimpleVector.pushN (s : SimpleVector T) (vals : List T) : SimpleVector T :=
  vals.foldl SimpleVector.PushBack s

/- Basic facts about the buffer-access helpers. -/

theorem length_writeSeq (vals buf : List T) (start : Nat) :
    (writeSeq buf start vals).length = buf.length := by
  induction vals generalizing buf start with
  | nil => rfl
  | cons v rest ih => simp [writeSeq, ih]

theorem bufGet_set_ne (buf : List T) (j i : Nat) (v : T) (h : j ≠ i) :
    bufGet (buf.set j v) i = bufGet buf i := by
  simp [bufGet, List.getElem?_set_ne h]

theorem bufGet_set_self (buf : List T) (i : Nat) (v : T) (h : i < buf.length) :
    bufGet (buf.set i v) i = v := by
  simp [bufGet, List.getElem?_set_self h]

theorem bufGet_writeSeq_lt (vals buf : List T) (start i : Nat) (h : i < start) :
    bufGet (writeSeq buf start vals) i = bufGet buf i := by
  induction vals generalizing buf start with
  | nil => rfl
  | cons v rest ih =>
    rw [writeSeq, ih (buf.set start v) (start + 1) (by omega),
      bufGet_set_ne buf start i v (by omega)]

theorem bufGet_writeSeq_ge (vals buf : List T) (start i : Nat)
    (h : start + vals.length ≤ i) :
    bufGet (writeSeq buf start vals) i = bufGet buf i := by
  induction vals generalizing buf start with
  | nil => rfl
  | cons v rest ih =>
    simp only [List.length_cons] at h
    rw [writeSeq, ih (buf.set start v) (start + 1) (by omega),
      bufGet_set_ne buf start i v (by omega)]

theorem bufGet_writeSeq_mid (vals buf : List T) (start i : Nat) (h1 : start ≤ i)
    (h2 : i < start + vals.length) (h3 : i < buf.length) :
    bufGet (writeSeq buf start vals) i = vals.getD (i - start) default := by
  induction vals generalizing buf start with
  | nil => simp at h2; omega
  | cons v rest ih =>
    rw [writeSeq]
    rcases Nat.eq_or_lt_of_le h1 with heq | hlt
    · subst heq
      rw [bufGet_writeSeq_lt rest (buf.set start v) (start + 1) start (by omega),
        bufGet_set_self buf start v h3]
      simp
    · rw [ih (buf.set start v) (start + 1) (by omega)
        (by simp only [List.length_cons] at h2; omega) (by simpa using h3)]
      have hsub : i - start = (i - (start + 1)) + 1 := by omega
      simp [hsub]

theorem length_readSeq (buf : List T) (start count : Nat) :
    (readSeq buf start count).length = count := by
  simp [readSeq]

theorem getD_readSeq (buf : List T) (start count i : Nat) (h : i < count) :
    (readSeq buf start count).getD i default = bufGet buf (start + i) := by
  have hl : i < (readSeq buf start count).length := by simpa [length_readSeq] using h
  rw [List.getD_eq_getElem?_getD, List.getElem?_eq_getElem hl]
  simp [readSeq]

theorem getElem_readSeq (buf : List T) (start count i : Nat)
    (h : i < (readSeq buf start count).length) :
    (readSeq buf start count)[i] = bufGet buf (start + i) := by
  simp [readSeq]

theorem readSeq_congr {b1 b2 : List T} {s1 s2 c1 c2 : Nat} (hc : c1 = c2)
    (h : ∀ j, j < c1 → bufGet b1 (s1 + j) = bufGet b2 (s2 + j)) :
    readSeq b1 s1 c1 = readSeq b2 s2 c2 := by
  subst hc
  apply List.ext_getElem (by simp [length_readSeq])
  intro i hi1 hi2
  rw [getElem_readSeq, getElem_readSeq]
  exact h i (by simpa [length_readSeq] using hi1)

theorem getD_replicate_self (k j : Nat) :
    (List.replicate k (default : T)).getD j default = default := by
  rw [List.getD_eq_getElem?_getD, List.getElem?_replicate]
  by_cases h : j < k <;> simp [h]

/- ## Claim theorems -/

/-- **C1** (code bug at the capacity-reservation constructor): the claimed
invariant — the capacity field equals the physical extent of the owned
buffer — is broken by `SimpleVector(ReserveProxyObject)`. The body sets
`capacity_` to the requested value *before* calling `Reserve(capacity_)`,
so `Reserve`'s `new_capacity > capacity_` test is false and no buffer is
ever allocated: after `SimpleVector<T> v(Reserve(1))` the capacity field is
1 while the owned buffer is still null (extent 0), with size 0. -/
theorem c1_reserveCtor_capacity_mismatch :
    (SimpleVector.ofReserve 1 : SimpleVector Nat).capacity_ = 1 ∧
    (SimpleVector.ofReserve 1 : SimpleVector Nat).data_.length = 0 ∧
    (SimpleVector.ofReserve 1 : SimpleVector Nat).size_ = 0 := by
  refine ⟨rfl, rfl, rfl⟩

/-- **C2** (code bug in `operator==`): the operator is
`std::equal(lhs.begin(), lhs.end(), rhs.begin())`, which compares only the
first `lhs.GetSize()` positions and never checks the sizes. On
`lhs = {1}`, `rhs = {1, 2}` it returns `true` although the sizes differ,
contradicting the claimed "equal iff equal size and pointwise equal". -/
theorem c2_opEq_ignores_rhs_size :
    vecEqOp (SimpleVector.ofList [1] : SimpleVector Nat)
        (SimpleVector.ofList [1, 2]) = true ∧
    (SimpleVector.ofList [1] : SimpleVector Nat).size_ ≠
      (SimpleVector.ofList [1, 2] : SimpleVector Nat).size_ := by
  decide

/-- **C6** (confirmed): `At(i)` signals out-of-range exactly when
`i ≥ size_`; for `i < size_` it returns the same element as the unchecked
`operator[]`; and (the method being `const`) the object is unchanged in
all cases. -/
theorem c6_At_spec (s : SimpleVector T) (i : Nat) :
    ((s.At i).1 = Except.error () ↔ s.size_ ≤ i) ∧
    (i < s.size_ → (s.At i).1 = Except.ok (s.opIndex i)) ∧
    (s.At i).2 = s := by
  unfold SimpleVector.At SimpleVector.opIndex
  by_cases h : s.size_ ≤ i
  · rw [if_pos h]
    exact ⟨⟨fun _ => h, fun _ => rfl⟩, fun hi => absurd h (by omega), rfl⟩
  · rw [if_neg h]
    exact ⟨⟨fun he => Except.noConfusion he, fun hh => absurd hh h⟩, fun _ => rfl, rfl⟩

/-- Witness for C6 at the vector `{3, 4}` and index 1. -/
theorem c6_At_spec_witness :
    1 < (SimpleVector.ofList [3, 4] : SimpleVector Nat).size_ ∧
    ((SimpleVector.ofList [3, 4] : SimpleVector Nat).At 1).1 =
      Except.ok ((SimpleVector.ofList [3, 4] : SimpleVector Nat).opIndex 1) :=
  ⟨by decide, (c6_At_spec (SimpleVector.ofList [3, 4]) 1).2.1 (by decide)⟩

/-- **C7** (confirmed): move-construction and (distinct-object)
move-assignment hand the full state — size, capacity and buffer, hence the
element sequence — to the destination and leave the source with size 0 and
capacity 0 (and a null buffer). -/
theorem c7_move_transfer (s d : SimpleVector T) :
    (SimpleVector.moveCtor s).1 = s ∧
    (SimpleVector.moveCtor s).2.size_ = 0 ∧
    (SimpleVector.moveCtor s).2.capacity_ = 0 ∧
    (SimpleVector.moveAssign d s).1 = s ∧
    (SimpleVector.moveAssign d s).2.size_ = 0 ∧
    (SimpleVector.moveAssign d s).2.capacity_ = 0 :=
  ⟨rfl, rfl, rfl, rfl, rfl, rfl⟩

/-- **C9** (confirmed): `ArrayPtr` self-move-assignment is a no-op (the
`this != &other` guard skips the body), while move-assignment from a
distinct buffer transfers the owned allocation to the destination and
leaves the source holding the null pointer. -/
theorem c9_arrayptr_move_assign (a t o : ArrayPtr T) :
    ArrayPtr.moveAssignSelf a = a ∧
    (ArrayPtr.moveAssign t o).1.raw_ptr_ = o.raw_ptr_ ∧
    (ArrayPtr.moveAssign t o).2.raw_ptr_ = none :=
  ⟨rfl, rfl, rfl⟩

/-- **C10** (confirmed): `PopBack` on a non-empty vector keeps the capacity
and every buffer slot — in particular the elements at indices
`[0, size_ - 2]` — and `Erase` at a valid position `p` keeps the capacity
and the elements at indices `[0, p)`. -/
theorem c10_popback_erase_frame (s : SimpleVector T) (p : Nat)
    (hs : s.size_ ≠ 0) (hp : p < s.size_) :
    (s.PopBack.capacity_ = s.capacity_ ∧
      ∀ i, i + 1 < s.size_ → bufGet s.PopBack.data_ i = bufGet s.data_ i) ∧
    ((s.Erase p).capacity_ = s.capacity_ ∧
      ∀ i, i < p → bufGet (s.Erase p).data_ i = bufGet s.data_ i) := by
  refine ⟨⟨rfl, fun i _ => rfl⟩, rfl, fun i hi => ?_⟩
  exact bufGet_writeSeq_lt _ s.data_ p i hi

/-- Witness for C10 at the vector `{1, 2, 3}` and erase position 1. -/
theorem c10_popback_erase_frame_witness :
    (SimpleVector.ofList [1, 2, 3] : SimpleVector Nat).size_ ≠ 0 ∧
    1 < (SimpleVector.ofList [1, 2, 3] : SimpleVector Nat).size_ ∧
    (((SimpleVector.ofList [1, 2, 3] : SimpleVector Nat).PopBack.capacity_ =
        (SimpleVector.ofList [1, 2, 3] : SimpleVector Nat).capacity_ ∧
      ∀ i, i + 1 < (SimpleVector.ofList [1, 2, 3] : SimpleVector Nat).size_ →
        bufGet (SimpleVector.ofList [1, 2, 3] : SimpleVector Nat).PopBack.data_ i =
          bufGet (SimpleVector.ofList [1, 2, 3] : SimpleVector Nat).data_ i) ∧
    (((SimpleVector.ofList [1, 2, 3] : SimpleVector Nat).Erase 1).capacity_ =
        (SimpleVector.ofList [1, 2, 3] : SimpleVector Nat).capacity_ ∧
      ∀ i, i < 1 →
        bufGet ((SimpleVector.ofList [1, 2, 3] : SimpleVector Nat).Erase 1).data_ i =
          bufGet (SimpleVector.ofList [1, 2, 3] : SimpleVector Nat).data_ i)) :=
  ⟨by decide, by decide,
    c10_popback_erase_frame (SimpleVector.ofList [1, 2, 3]) 1 (by decide) (by decide)⟩

/- ## Capacity bookkeeping of `PushBack`, `pushN` and `Reserve` (for C3) -/

theorem PushBack_fields_no_realloc (s : SimpleVector T) (v : T)
    (h : s.size_ + 1 ≤ s.capacity_) :
    (s.PushBack v).capacity_ = s.capacity_ ∧ (s.PushBack v).size_ = s.size_ + 1 := by
  unfold SimpleVector.PushBack
  rw [if_neg (by omega)]
  exact ⟨rfl, rfl⟩

theorem pushN_fields (vals : List T) (s : SimpleVector T)
    (h : s.size_ + vals.length ≤ s.capacity_) :
    (s.pushN vals).capacity_ = s.capacity_ ∧
    (s.pushN vals).size_ = s.size_ + vals.length := by
  induction vals generalizing s with
  | nil => exact ⟨rfl, rfl⟩
  | cons v rest ih =>
    simp only [List.length_cons] at h
    obtain ⟨hc, hs⟩ := PushBack_fields_no_realloc s v (by omega)
    obtain ⟨hc2, hs2⟩ := ih (s.PushBack v) (by rw [hc, hs]; omega)
    refine ⟨?_, ?_⟩
    · show ((s.PushBack v).pushN rest).capacity_ = s.capacity_
      rw [hc2, hc]
    · show ((s.PushBack v).pushN rest).size_ = s.size_ + (rest.length + 1)
      rw [hs2, hs]; omega

theorem Reserve_fields (s : SimpleVector T) (k : Nat) :
    (s.Reserve k).capacity_ = max s.capacity_ k ∧ (s.Reserve k).size_ = s.size_ := by
  unfold SimpleVector.Reserve
  by_cases h : k > s.capacity_
  · rw [if_pos h]
    exact ⟨(Nat.max_eq_right (Nat.le_of_lt h)).symm, rfl⟩
  · rw [if_neg h]
    exact ⟨(Nat.max_eq_left (Nat.le_of_not_lt h)).symm, rfl⟩

/-- **C3** (corrected): starting from a vector whose size `s` and push count
`k = vals.length` satisfy `s + k ≤ max(capacity, k)` — in particular from
any empty vector — `Reserve(k)` followed by the `k` `PushBack`s changes the
capacity at no push, and when `k > capacity` the `Reserve(k)` sets the
capacity to exactly `k` (not doubled). The original unrestricted claim is
false: reserving does not account for elements already stored (see the
counterexample). -/
theorem c3_reserve_then_pushes (s : SimpleVector T) (vals : List T)
    (h : s.size_ + vals.length ≤ max s.capacity_ vals.length) :
    (∀ j, j ≤ vals.length →
      ((s.Reserve vals.length).pushN (vals.take j)).capacity_ =
        (s.Reserve vals.length).capacity_) ∧
    (vals.length > s.capacity_ → (s.Reserve vals.length).capacity_ = vals.length) := by
  obtain ⟨hc, hsz⟩ := Reserve_fields s vals.length
  constructor
  · intro j hj
    refine (pushN_fields (vals.take j) (s.Reserve vals.length) ?_).1
    rw [hc, hsz, List.length_take]
    have hmin : min j vals.length = j := Nat.min_eq_left hj
    rw [hmin]
    rcases Nat.le_total s.capacity_ vals.length with hle | hle
    · rw [Nat.max_eq_right hle] at h ⊢; omega
    · rw [Nat.max_eq_left hle] at h ⊢; omega
  · intro hgt
    rw [hc]
    exact Nat.max_eq_right (Nat.le_of_lt hgt)

/-- Witness for C3: the empty vector, then `Reserve(2)` and two pushes. -/
theorem c3_reserve_then_pushes_witness :
    ((SimpleVector.mkDefault : SimpleVector Nat).size_ + ([5, 6] : List Nat).length ≤
      max (SimpleVector.mkDefault : SimpleVector Nat).capacity_ ([5, 6] : List Nat).length) ∧
    ((∀ j, j ≤ ([5, 6] : List Nat).length →
      (((SimpleVector.mkDefault : SimpleVector Nat).Reserve ([5, 6] : List Nat).length).pushN
          (([5, 6] : List Nat).take j)).capacity_ =
        ((SimpleVector.mkDefault : SimpleVector Nat).Reserve
          ([5, 6] : List Nat).length).capacity_) ∧
    (([5, 6] : List Nat).length > (SimpleVector.mkDefault : SimpleVector Nat).capacity_ →
      ((SimpleVector.mkDefault : SimpleVector Nat).Reserve
        ([5, 6] : List Nat).length).capacity_ = ([5, 6] : List Nat).length)) :=
  ⟨by decide, c3_reserve_then_pushes SimpleVector.mkDefault [5, 6] (by decide)⟩

/-- Counterexample for C3 as frozen: on a vector of size 2 and capacity 2
(`SimpleVector<T> v(2)`), `Reserve(3)` sets capacity 3, but the second of
the 3 subsequent pushes needs capacity 4 and reallocates (to 6), so the
capacity is not unchanged by each of the `k` pushes. -/
theorem c3_reserve_then_pushes_cex :
    (((SimpleVector.ofSize 2 : SimpleVector Nat).Reserve 3).pushN [5, 6, 7]).capacity_ ≠
      ((SimpleVector.ofSize 2 : SimpleVector Nat).Reserve 3).capacity_ := by
  decide

/-- **C8** (confirmed): `SimpleVector(const SimpleVector&)` produces a copy
whose size equals the source's size, whose capacity equals the source's
*logical size* (not the source's capacity), and whose logical elements
equal the source's index by index. (The copy owns a freshly allocated
buffer into which the elements were copied; mutation of the copy therefore
cannot affect the original — in this functional embedding every operation
on the copy is a pure function of the copy's own state.) -/
theorem c8_copyCtor_spec (s : SimpleVector T) :
    s.copyCtor.size_ = s.size_ ∧ s.copyCtor.capacity_ = s.size_ ∧
    s.copyCtor.elems = s.elems := by
  refine ⟨rfl, rfl, ?_⟩
  show readSeq
      (writeSeq (List.replicate s.size_ default) 0 (readSeq s.data_ 0 s.size_))
      0 s.size_ = readSeq s.data_ 0 s.size_
  apply readSeq_congr rfl
  intro j hj
  rw [bufGet_writeSeq_mid (readSeq s.data_ 0 s.size_) _ 0 (0 + j) (by omega)
    (by rw [length_readSeq]; omega) (by rw [List.length_replicate]; omega)]
  have h0 : 0 + j - 0 = j := by omega
  rw [h0, getD_readSeq s.data_ 0 s.size_ j hj]

/- ## `Resize`'s growth path (for C4) -/

theorem sizeT_roundtrip (v : Nat) (h : v < 2 ^ 31) : sizeTOfInt (intOfSizeT v) = v := by
  unfold intOfSizeT sizeTOfInt
  have h32 : v % 2 ^ 32 = v := Nat.mod_eq_of_lt (by omega)
  rw [h32, if_pos h]
  rw [Int.emod_eq_of_lt (Int.ofNat_nonneg v) (by exact_mod_cast (by omega : v < 2 ^ 64))]
  exact Int.toNat_ofNat v

/-- **C4** (corrected): when `newSize > capacity` *and the grown capacity
`max(newSize, 2 * capacity)` fits in a signed 32-bit `int`*, `Resize`
reallocates to capacity `max(newSize, 2 * capacity)`, keeps the elements
`[0, size)` in order, default-fills `[size, newSize)`, and sets the size to
`newSize`. The unrestricted claim is false because the source computes the
new capacity through a signed-`int` intermediate (see the
counterexample at `newSize = 2^31`). -/
theorem c4_resize_grow_spec (s : SimpleVector T) (n : Nat)
    (hlen : s.capacity_ = s.data_.length) (hsz : s.size_ ≤ s.capacity_)
    (hn : s.capacity_ < n) (hfit : max n (s.capacity_ * 2) < 2 ^ 31) :
    (s.Resize n).capacity_ = max n (s.capacity_ * 2) ∧
    (s.Resize n).size_ = n ∧
    (s.Resize n).elems = s.elems ++ List.replicate (n - s.size_) default := by
  have hA : n ≤ max n (s.capacity_ * 2) := Nat.le_max_left _ _
  unfold SimpleVector.Resize
  rw [if_neg (by omega : ¬ n ≤ s.size_), if_neg (by omega : ¬ n ≤ s.capacity_)]
  refine ⟨sizeT_roundtrip _ hfit, rfl, ?_⟩
  show readSeq
      (writeSeq
        (writeSeq (List.replicate (sizeTOfInt (intOfSizeT (max n (s.capacity_ * 2)))) default)
          0 (readSeq s.data_ 0 s.size_))
        s.size_ (List.replicate (n - s.size_) default))
      0 n
    = readSeq s.data_ 0 s.size_ ++ List.replicate (n - s.size_) default
  rw [sizeT_roundtrip _ hfit]
  have hlen1 : (writeSeq (List.replicate (max n (s.capacity_ * 2)) (default : T))
      0 (readSeq s.data_ 0 s.size_)).length = max n (s.capacity_ * 2) := by
    rw [length_writeSeq, List.length_replicate]
  apply List.ext_getElem
  · rw [length_readSeq, List.length_append, length_readSeq, List.length_replicate]
    omega
  · intro i hi1 hi2
    rw [getElem_readSeq]
    have hi : i < n := by rw [length_readSeq] at hi1; omega
    have hzi : 0 + i = i := by omega
    rw [hzi]
    by_cases hc : i < s.size_
    · rw [bufGet_writeSeq_lt _ _ s.size_ i hc,
        bufGet_writeSeq_mid (readSeq s.data_ 0 s.size_) _ 0 i (by omega)
          (by rw [length_readSeq]; omega) (by rw [List.length_replicate]; omega),
        List.getElem_append_left (by rw [length_readSeq]; omega)]
      have h0 : i - 0 = i := by omega
      rw [h0, getD_readSeq s.data_ 0 s.size_ i hc, getElem_readSeq]
    · rw [bufGet_writeSeq_mid (List.replicate (n - s.size_) default) _ s.size_ i
          (by omega) (by rw [List.length_replicate]; omega) (by rw [hlen1]; omega),
        getD_replicate_self,
        List.getElem_append_right (by rw [length_readSeq]; omega)]
      rw [List.getElem_replicate]

/-- Witness for C4 at the vector `{1, 2}` resized to 5. -/
theorem c4_resize_grow_spec_witness :
    ((SimpleVector.ofList [1, 2] : SimpleVector Nat).capacity_ =
      (SimpleVector.ofList [1, 2] : SimpleVector Nat).data_.length) ∧
    ((SimpleVector.ofList [1, 2] : SimpleVector Nat).size_ ≤
      (SimpleVector.ofList [1, 2] : SimpleVector Nat).capacity_) ∧
    ((SimpleVector.ofList [1, 2] : SimpleVector Nat).capacity_ < 5) ∧
    (max 5 ((SimpleVector.ofList [1, 2] : SimpleVector Nat).capacity_ * 2) < 2 ^ 31) ∧
    (((SimpleVector.ofList [1, 2] : SimpleVector Nat).Resize 5).capacity_ =
      max 5 ((SimpleVector.ofList [1, 2] : SimpleVector Nat).capacity_ * 2) ∧
    ((SimpleVector.ofList [1, 2] : SimpleVector Nat).Resize 5).size_ = 5 ∧
    ((SimpleVector.ofList [1, 2] : SimpleVector Nat).Resize 5).elems =
      (SimpleVector.ofList [1, 2] : SimpleVector Nat).elems ++
        List.replicate (5 - (SimpleVector.ofList [1, 2] : SimpleVector Nat).size_) default) :=
  ⟨by decide, by decide, by decide, by decide,
    c4_resize_grow_spec (SimpleVector.ofList [1, 2]) 5
      (by decide) (by decide) (by decide) (by decide)⟩

/-- Counterexample for C4 as frozen: on the empty vector (size 0,
capacity 0), `Resize(2^31)` computes `std::max(2^31, 0)` and narrows it to
`int`, giving `-2^31`; converted back to `size_t` the resulting capacity
field is `2^64 - 2^31`, not the claimed `max(2^31, 2 * 0) = 2^31` (and the
matching `new Type[2^64 - 2^31]` request can only throw). -/
theorem c4_resize_grow_cex :
    ((SimpleVector.mkDefault : SimpleVector Nat).Resize (2 ^ 31)).capacity_ ≠
      max (2 ^ 31) ((SimpleVector.mkDefault : SimpleVector Nat).capacity_ * 2) := by
  decide

/- ## Pointwise effect of `Insert` and `Erase` (for C5) -/

theorem Insert_bufGet (s : SimpleVector T) (p : Nat) (v : T)
    (hlen : s.capacity_ = s.data_.length) (hsz : s.size_ ≤ s.capacity_)
    (hp : p ≤ s.size_) :
    (s.Insert p v).size_ = s.size_ + 1 ∧
    s.size_ + 1 ≤ (s.Insert p v).data_.length ∧
    (∀ i, i < p → bufGet (s.Insert p v).data_ i = bufGet s.data_ i) ∧
    bufGet (s.Insert p v).data_ p = v ∧
    (∀ i, p < i → i ≤ s.size_ →
      bufGet (s.Insert p v).data_ i = bufGet s.data_ (i - 1)) := by
  unfold SimpleVector.Insert
  by_cases hcap : s.size_ + 1 ≤ s.capacity_
  · rw [if_pos hcap]
    refine ⟨rfl, ?_, ?_, ?_, ?_⟩
    · show s.size_ + 1 ≤
        ((writeSeq s.data_ (p + 1) (readSeq s.data_ p (s.size_ - p))).set p v).length
      rw [List.length_set, length_writeSeq]; omega
    · intro i hi
      show bufGet ((writeSeq s.data_ (p + 1)
          (readSeq s.data_ p (s.size_ - p))).set p v) i = bufGet s.data_ i
      rw [bufGet_set_ne _ p i v (by omega),
        bufGet_writeSeq_lt _ s.data_ (p + 1) i (by omega)]
    · show bufGet ((writeSeq s.data_ (p + 1)
          (readSeq s.data_ p (s.size_ - p))).set p v) p = v
      apply bufGet_set_self
      rw [length_writeSeq]; omega
    · intro i hpi his
      show bufGet ((writeSeq s.data_ (p + 1)
          (readSeq s.data_ p (s.size_ - p))).set p v) i = bufGet s.data_ (i - 1)
      rw [bufGet_set_ne _ p i v (by omega),
        bufGet_writeSeq_mid _ s.data_ (p + 1) i (by omega)
          (by rw [length_readSeq]; omega) (by omega)]
      rw [getD_readSeq s.data_ p _ _ (by omega)]
      have harith : p + (i - (p + 1)) = i - 1 := by omega
      rw [harith]
  · rw [if_neg hcap]
    set nc := (if s.capacity_ ≠ 0 then max (s.size_ + 1) (2 * s.capacity_) else 1) with hncdef
    have hnc : s.size_ + 1 ≤ nc := by
      rw [hncdef]
      by_cases h0 : s.capacity_ ≠ 0
      · rw [if_pos h0]; exact Nat.le_max_left _ _
      · rw [if_neg h0]; omega
    refine ⟨rfl, ?_, ?_, ?_, ?_⟩
    · show s.size_ + 1 ≤ (writeSeq ((writeSeq (List.replicate nc default) 0
          (readSeq s.data_ 0 p)).set p v) (p + 1)
          (readSeq s.data_ p (s.size_ - p))).length
      rw [length_writeSeq, List.length_set, length_writeSeq, List.length_replicate]
      exact hnc
    · intro i hi
      show bufGet (writeSeq ((writeSeq (List.replicate nc default) 0
          (readSeq s.data_ 0 p)).set p v) (p + 1)
          (readSeq s.data_ p (s.size_ - p))) i = bufGet s.data_ i
      rw [bufGet_writeSeq_lt _ _ (p + 1) i (by omega),
        bufGet_set_ne _ p i v (by omega),
        bufGet_writeSeq_mid _ _ 0 i (by omega)
          (by rw [length_readSeq]; omega) (by rw [List.length_replicate]; omega)]
      rw [Nat.sub_zero, getD_readSeq s.data_ 0 p i hi, Nat.zero_add]
    · show bufGet (writeSeq ((writeSeq (List.replicate nc default) 0
          (readSeq s.data_ 0 p)).set p v) (p + 1)
          (readSeq s.data_ p (s.size_ - p))) p = v
      rw [bufGet_writeSeq_lt _ _ (p + 1) p (by omega)]
      apply bufGet_set_self
      rw [length_writeSeq, List.length_replicate]; omega
    · intro i hpi his
      show bufGet (writeSeq ((writeSeq (List.replicate nc default) 0
          (readSeq s.data_ 0 p)).set p v) (p + 1)
          (readSeq s.data_ p (s.size_ - p))) i = bufGet s.data_ (i - 1)
      rw [bufGet_writeSeq_mid _ _ (p + 1) i (by omega)
          (by rw [length_readSeq]; omega)
          (by rw [List.length_set, length_writeSeq, List.length_replicate]; omega)]
      rw [getD_readSeq s.data_ p _ _ (by omega)]
      have harith : p + (i - (p + 1)) = i - 1 := by omega
      rw [harith]

theorem Erase_bufGet (s : SimpleVector T) (q : Nat)
    (hq : q < s.size_) (hlen : s.size_ ≤ s.data_.length) :
    (s.Erase q).size_ = s.size_ - 1 ∧
    (∀ i, i < q → bufGet (s.Erase q).data_ i = bufGet s.data_ i) ∧
    (∀ i, q ≤ i → i < s.size_ - 1 →
      bufGet (s.Erase q).data_ i = bufGet s.data_ (i + 1)) := by
  refine ⟨rfl, fun i hi => bufGet_writeSeq_lt _ s.data_ q i hi, fun i hqi his => ?_⟩
  show bufGet (writeSeq s.data_ q
      (readSeq s.data_ (q + 1) (s.size_ - (q + 1)))) i = bufGet s.data_ (i + 1)
  rw [bufGet_writeSeq_mid _ s.data_ q i hqi (by rw [length_readSeq]; omega) (by omega)]
  rw [getD_readSeq s.data_ (q + 1) _ _ (by omega)]
  have harith : q + 1 + (i - q) = i + 1 := by omega
  rw [harith]

/-- **C5** (confirmed): for every vector satisfying the size/capacity/buffer
invariant and every valid position `p ≤ size`, `Insert` of any value at `p`
followed by `Erase` at `p` restores the original sequence of logical
elements. -/
theorem c5_insert_erase_roundtrip (s : SimpleVector T) (p : Nat) (v : T)
    (hlen : s.capacity_ = s.data_.length) (hsz : s.size_ ≤ s.capacity_)
    (hp : p ≤ s.size_) :
    ((s.Insert p v).Erase p).elems = s.elems := by
  obtain ⟨h1, h2, h3, h4, h5⟩ := Insert_bufGet s p v hlen hsz hp
  obtain ⟨e1, e2, e3⟩ := Erase_bufGet (s.Insert p v) p (by omega) (by omega)
  unfold SimpleVector.elems
  have hsize : ((s.Insert p v).Erase p).size_ = s.size_ := by omega
  rw [hsize]
  apply readSeq_congr rfl
  intro j hj
  rw [Nat.zero_add]
  by_cases hcase : j < p
  · rw [e2 j hcase, h3 j hcase]
  · rw [e3 j (by omega) (by omega), h5 (j + 1) (by omega) (by omega),
      Nat.add_sub_cancel]

/-- Witness for C5 at the vector `{1, 2, 3}`, position 1, value 9. -/
theorem c5_insert_erase_roundtrip_witness :
    ((SimpleVector.ofList [1, 2, 3] : SimpleVector Nat).capacity_ =
      (SimpleVector.ofList [1, 2, 3] : SimpleVector Nat).data_.length) ∧
    ((SimpleVector.ofList [1, 2, 3] : SimpleVector Nat).size_ ≤
      (SimpleVector.ofList [1, 2, 3] : SimpleVector Nat).capacity_) ∧
    (1 ≤ (SimpleVector.ofList [1, 2, 3] : SimpleVector Nat).size_) ∧
    (((SimpleVector.ofList [1, 2, 3] : SimpleVector Nat).Insert 1 9).Erase 1).elems =
      (SimpleVector.ofList [1, 2, 3] : SimpleVector Nat).elems :=
  ⟨by decide, by decide, by decide,
    c5_insert_erase_roundtrip (SimpleVector.ofList [1, 2, 3]) 1 9
      (by decide) (by decide) (by decide)⟩
